import Mathlib

/-!
Verification of the TILBlog content ingestion and query pipeline (`app.py`).

The Python source is shallowly embedded: pure string manipulations become
Lean functions on `String` / `List Char`, the SQLite store becomes an
explicit `DB` record of lists, and `build_database` becomes a fold over the
discovered source files.  Per-file exceptions (malformed front matter,
unreadable files, the UNIQUE-constraint violation on duplicate slugs) are
modelled by the branches that the corresponding `try/except` blocks take.
-/

namespace TILBlog

/-- Python truthiness for optional strings: `None` and `""` are falsy.
Used to model `front_matter.get('x') or ...` / `if not x:` chains. -/
def truthy : Option String → Option String
  | some s => if s = "" then none else some s
  | none => none

/-- Python `\s` character class (whitespace as used by `re` and `str.split`). -/
def isPySpace (c : Char) : Bool :=
  c = ' ' || c = '\t' || c = '\n' || c = '\r' || c = '\x0b' || c = '\x0c'

/-- Python `\w` character class restricted to ASCII inputs:
alphanumeric characters and underscore. -/
def isPyWord (c : Char) : Bool := c.isAlphanum || c = '_'

/-- `str.lower()` on the character list of an (ASCII) string. -/
def pyLower (l : List Char) : List Char := l.map Char.toLower

/-- Python `str.strip()`: drop leading and trailing whitespace. -/
def pyStrip (l : List Char) : List Char :=
  ((l.dropWhile isPySpace).reverse.dropWhile isPySpace).reverse

/-- `str.strip()` lifted to `String`. -/
def pyStripS (s : String) : String := ⟨pyStrip s.data⟩

/-- Replace every maximal run of characters satisfying `p` by the single
character `r`; models `re.sub(r'[P]+', R, s)` for a character class `P`.
The flag records whether the previous character was part of a run. -/
def subRunsAux (p : Char → Bool) (r : Char) : Bool → List Char → List Char
  | _, [] => []
  | inRun, c :: cs =>
    if p c then
      if inRun then subRunsAux p r true cs else r :: subRunsAux p r true cs
    else c :: subRunsAux p r false cs

def subRuns (p : Char → Bool) (r : Char) (l : List Char) : List Char :=
  subRunsAux p r false l

/-- Python `str.strip(c)` for a single character: drop leading and trailing
occurrences of `c`. -/
def stripChar (c : Char) (l : List Char) : List Char :=
  ((l.dropWhile (· = c)).reverse.dropWhile (· = c)).reverse

/-- Document slug derivation, from `build_database` (app.py lines 233-236):
`title.lower()`, then `re.sub(r'[^\w\s-]', '', slug)`, then
`re.sub(r'[\s_]+', '-', slug)`, then `slug.strip('-')`. -/
def docSlug (title : String) : String :=
  let lowered := pyLower title.data
  let kept := lowered.filter (fun c => isPyWord c || isPySpace c || c = '-')
  let hyphened := subRuns (fun c => isPySpace c || c = '_') '-' kept
  ⟨stripChar '-' hyphened⟩

/-- Wikilink slug derivation, from `convert_wikilinks` (app.py lines 82-84):
`link_text.lower().replace(' ', '-').replace('_', '-')`, then
`re.sub(r'[^\w\-]', '', slug)`. -/
def wikiSlug (text : String) : String :=
  let lowered := pyLower text.data
  let replaced := lowered.map (fun c => if c = ' ' then '-' else if c = '_' then '-' else c)
  ⟨replaced.filter (fun c => isPyWord c || c = '-')⟩

/-- The anchor produced for one wikilink match (app.py line 85). -/
def wikiAnchor (baseUrl : String) (body : List Char) : String :=
  "<a href=\"" ++ baseUrl ++ "/note/" ++ wikiSlug ⟨body⟩ ++ "/\" class=\"wiki-link\">"
    ++ (⟨body⟩ : String) ++ "</a>"

/-- Left-to-right scan of `re.sub(r'\[\[([^\]]+)\]\]', replace_link, content)`:
at each position try to match `[[`, one or more non-`]` characters, then `]]`;
on a match emit the anchor and continue after the match, otherwise keep the
character and advance one position.  The fuel argument (initially the length
of the list) only forces structural recursion; it is never exhausted. -/
def convertWikilinksAux (baseUrl : String) : Nat → List Char → List Char
  | _, [] => []
  | 0, l => l
  | fuel + 1, '[' :: '[' :: rest =>
    let body := rest.takeWhile (· ≠ ']')
    let after := rest.drop body.length
    if body ≠ [] ∧ after.take 2 = [']', ']'] then
      (wikiAnchor baseUrl body).data ++ convertWikilinksAux baseUrl fuel (after.drop 2)
    else
      '[' :: convertWikilinksAux baseUrl fuel ('[' :: rest)
  | fuel + 1, c :: cs => c :: convertWikilinksAux baseUrl fuel cs

/-- `convert_wikilinks` (app.py lines 73-89); `baseUrl` models the
`TIL_BASE_URL` environment variable. -/
def convert_wikilinks (baseUrl : String) (content : String) : String :=
  ⟨convertWikilinksAux baseUrl content.data.length content.data⟩

/-- `re.sub(r'<[^>]+>', '', html)` — strip HTML tags for the preview fallback
(app.py lines 429 and 528). -/
def stripTagsAux : Nat → List Char → List Char
  | _, [] => []
  | 0, l => l
  | fuel + 1, '<' :: rest =>
    let body := rest.takeWhile (· ≠ '>')
    let after := rest.drop body.length
    if body ≠ [] ∧ after.take 1 = ['>'] then
      stripTagsAux fuel (after.drop 1)
    else
      '<' :: stripTagsAux fuel rest
  | fuel + 1, c :: cs => c :: stripTagsAux fuel cs

def stripTags (html : String) : String := ⟨stripTagsAux html.data.length html.data⟩

/-- `str.split()` with no separator: split into maximal whitespace-free words.
`acc` holds the (reversed) word being scanned. -/
def wordsAux (acc : List Char) : List Char → List (List Char)
  | [] => if acc.isEmpty then [] else [acc.reverse]
  | c :: cs =>
    if isPySpace c then
      if acc.isEmpty then wordsAux [] cs else acc.reverse :: wordsAux [] cs
    else wordsAux (c :: acc) cs

/-- `' '.join(words)`. -/
def joinWords : List (List Char) → List Char
  | [] => []
  | [w] => w
  | w :: ws => w ++ ' ' :: joinWords ws

/-- Python `' '.join(s.split())`: collapse all whitespace runs to single
spaces and trim the ends (app.py lines 436 and 535). -/
def collapseWs (s : String) : String := ⟨joinWords (wordsAux [] s.data)⟩

/-- Index of the last character satisfying `p`, or `none`;
models Python `str.rfind` (which returns -1 when absent). -/
def rfindIdx (p : Char → Bool) : List Char → Option Nat
  | [] => none
  | c :: cs =>
    match rfindIdx p cs with
    | some j => some (j + 1)
    | none => if p c then some 0 else none

/-- The preview truncation applied to collapsed text in the `/topic/<topic>`
route (app.py lines 536-543): text of more than 200 characters is cut at the
last space inside the first 200 characters if that space is past index 140,
else hard-truncated to 200 characters; `...` is appended in both cases. -/
def previewTruncate (s : String) : String :=
  if s.data.length > 200 then
    let truncated := s.data.take 200
    match rfindIdx (· = ' ') truncated with
    | some i =>
      if i > 140 then (⟨s.data.take i⟩ : String) ++ "..."
      else (⟨truncated⟩ : String) ++ "..."
    | none => (⟨truncated⟩ : String) ++ "..."
  else s

/-! ## Data model of the store and the ingestion input -/

/-- The YAML `topics` front-matter field: absent, a bare string, or a list
(`topics = front_matter.get('topics', [])` plus the `isinstance(topics, str)`
wrap, app.py lines 241-243). -/
inductive TopicsField where
  | absent : TopicsField
  | str : String → TopicsField
  | list : List String → TopicsField
deriving DecidableEq

/-- `topics` resolved to a list. -/
def resolveTopics : TopicsField → List String
  | .absent => []
  | .str s => [s]
  | .list l => l

/-- Parsed front-matter mapping.  Date-valued fields are modelled by their
final string representation (the source formats `datetime` values with
`strftime` and passes other values through `str`). -/
structure FrontMatter where
  title : Option String := none
  slug : Option String := none
  topics : TopicsField := .absent
  created : Option String := none
  date : Option String := none
  modified : Option String := none
  updated : Option String := none
deriving DecidableEq

/-- Filesystem stat info; timestamps carry their formatted
`YYYY-MM-DD HH:MM:SS` representation.  `birthtime` is `none` on platforms
where `st_birthtime` raises `AttributeError`. -/
structure Stat where
  birthtime : Option String := none
  ctime : String := ""
  mtime : String := ""
deriving DecidableEq

/-- One discovered markdown file.  `parse = none` models
`frontmatter.load` (or the surrounding I/O) raising an exception for this
file; otherwise it yields the metadata mapping and the body text. -/
structure SourceFile where
  stem : String
  parse : Option (FrontMatter × String)
  stat : Stat := {}
deriving DecidableEq

/-- A row of the `entries` table (app.py lines 143-155). -/
structure Entry where
  id : Nat
  slug : String
  title : String
  content : String
  html : String
  created_fs : String
  modified_fs : String
  created_fm : Option String
  topics_raw : String
deriving DecidableEq

/-- The SQLite store: `entries`, `topics` (id, name), the `entry_topics`
join table (entry_id, topic_id) and the `entry_fts` index rows
(rowid, title, content, topics). -/
structure DB where
  entries : List Entry := []
  topics : List (Nat × String) := []
  entry_topics : List (Nat × Nat) := []
  fts : List (Nat × String × String × String) := []
deriving DecidableEq

/-- The freshly created empty schema (after the DROP/CREATE block,
app.py lines 136-184). -/
def emptyDB : DB := {}

/-! ## Metadata normalization -/

/-- Python `str.title()`: uppercase every letter that follows a non-cased
character, lowercase the others (ASCII inputs). -/
def pyTitleAux : Bool → List Char → List Char
  | _, [] => []
  | prevCased, c :: cs =>
    if c.isAlpha then
      (if prevCased then c.toLower else c.toUpper) :: pyTitleAux true cs
    else c :: pyTitleAux false cs

/-- `filepath.stem.replace('-', ' ').replace('_', ' ').title()`
(app.py line 228). -/
def titleFromStem (stem : String) : String :=
  ⟨pyTitleAux false (stem.data.map fun c => if c = '-' then ' ' else if c = '_' then ' ' else c)⟩

/-- Python `str.splitlines` restricted to `\n` separators. -/
def splitLines (l : List Char) : List (List Char) :=
  go [] l
where
  go (acc : List Char) : List Char → List (List Char)
    | [] => [acc.reverse]
    | c :: cs => if c = '\n' then acc.reverse :: go [] cs else go (c :: acc) cs

/-- First `# ` heading of the stripped body, with `line[2:].strip()` applied
(app.py lines 221-225). -/
def firstHeading (content : String) : Option String :=
  ((splitLines (pyStrip content.data)).find? (fun l => l.take 2 = ['#', ' '])).map
    (fun l => ⟨pyStrip (l.drop 2)⟩)

/-- Title resolution (app.py lines 218-228): front-matter `title`, else the
first `# ` heading (skipped if it strips to empty), else the filename stem. -/
def resolveTitle (fm : FrontMatter) (content : String) (stem : String) : String :=
  match truthy fm.title with
  | some t => t
  | none =>
    match truthy (firstHeading content) with
    | some t => t
    | none => titleFromStem stem

/-- Slug resolution (app.py lines 231-236): front-matter `slug` if truthy,
else derived from the resolved title. -/
def mkSlug (fm : FrontMatter) (title : String) : String :=
  match truthy fm.slug with
  | some s => s
  | none => docSlug title

/-- `created_fs` (app.py lines 247-253): `st_birthtime` when the platform
exposes it, else `st_ctime`. -/
def createdFs (st : Stat) : String := st.birthtime.getD st.ctime

/-- `modified_fs` (app.py lines 256-263): `st_mtime`, overridden by a truthy
front-matter `modified`/`updated` field. -/
def modifiedFs (fm : FrontMatter) (st : Stat) : String :=
  ((truthy fm.modified).orElse (fun _ => truthy fm.updated)).getD st.mtime

/-- `created_fm` (app.py lines 266-271): truthy `created`, else truthy
`date`, else NULL. -/
def createdFm (fm : FrontMatter) : Option String :=
  (truthy fm.created).orElse (fun _ => truthy fm.date)

/-- `','.join(topics)`. -/
def joinComma (l : List String) : String := String.intercalate "," l

/-! ## build_database -/

/-- The entry row inserted for one file (app.py lines 273-304).  `render`
abstracts the external `markdown(...)` call; the wikilink rewrite is applied
to the body before it. -/
def mkEntry (render : String → String) (baseUrl : String) (eid : Nat)
    (fm : FrontMatter) (content : String) (f : SourceFile) : Entry :=
  let title := resolveTitle fm content f.stem
  { id := eid
    slug := mkSlug fm title
    title := title
    content := content
    html := render (convert_wikilinks baseUrl content)
    created_fs := createdFs f.stat
    modified_fs := modifiedFs fm f.stat
    created_fm := createdFm fm
    topics_raw := joinComma (resolveTopics fm.topics) }

/-- The body of the per-topic loop (app.py lines 307-327): strip the topic,
skip if empty, `INSERT OR IGNORE` into `topics` (fresh id = row count + 1),
`SELECT id ... WHERE name = ?`, and insert the association row. -/
def insertTopicAssoc (eid : Nat) (db : DB) (rawTopic : String) : DB :=
  let t := pyStripS rawTopic
  if t = "" then db
  else
    let topics1 :=
      if db.topics.any (fun q => q.2 = t) then db.topics
      else db.topics ++ [(db.topics.length + 1, t)]
    match topics1.find? (fun q => q.2 = t) with
    | some q => { db with topics := topics1, entry_topics := db.entry_topics ++ [(eid, q.1)] }
    | none => { db with topics := topics1 }

/-- Per-file processing (app.py lines 207-333).  A parse/read error skips
the file (`except ... continue`); a duplicate slug makes the `INSERT` raise
`IntegrityError`, caught by the same handler, so the file is skipped before
any of its topic rows are inserted. -/
def processFile (render : String → String) (baseUrl : String) (db : DB)
    (f : SourceFile) : DB :=
  match f.parse with
  | none => db
  | some (fm, content) =>
    let title := resolveTitle fm content f.stem
    let slug := mkSlug fm title
    if db.entries.any (fun e => e.slug = slug) then db
    else
      let eid := db.entries.length + 1
      let e := mkEntry render baseUrl eid fm content f
      let db1 : DB := { db with entries := db.entries ++ [e] }
      (resolveTopics fm.topics).foldl (insertTopicAssoc eid) db1

/-- `build_database` on a discovered file list (app.py lines 129-348): fresh
schema, per-file processing, then the single bulk `INSERT INTO entry_fts ...
SELECT id, title, content, topics_raw FROM entries` (lines 336-339). -/
def build_database (render : String → String) (baseUrl : String)
    (files : List SourceFile) : DB :=
  let db := files.foldl (processFile render baseUrl) emptyDB
  { db with fts := db.entries.map fun e => (e.id, e.title, e.content, e.topics_raw) }

/-- What the source prints as its completion summary (app.py lines 342-345):
entry count and topic count.  `build_database` itself returns `None`; this
pair is the only per-run report the code produces. -/
def buildReport (render : String → String) (baseUrl : String)
    (files : List SourceFile) : Nat × Nat :=
  ((build_database render baseUrl files).entries.length,
   (build_database render baseUrl files).topics.length)

/-- How the call to `build_database` terminated. -/
inductive Outcome where
  | normal : Outcome
  | raised : Outcome
deriving DecidableEq

/-- Store-level semantics of one `build_database` call against a store whose
prior committed contents are `prior`.  The DROP/CREATE block runs first and,
having no surrounding transaction, is committed immediately, so every branch
starts from the empty schema.  `contentDir = none` models a missing content
directory: the function prints an error and returns normally (app.py lines
188-192), leaving the freshly created empty tables behind.  No branch raises
to the caller. -/
def build_database_run (render : String → String) (baseUrl : String)
    (prior : DB) (contentDir : Option (List SourceFile)) : DB × Outcome :=
  match contentDir with
  | none => (emptyDB, .normal)
  | some files =>
    if files.isEmpty then (emptyDB, .normal)
    else (build_database render baseUrl files, .normal)

/-! ## Query layer -/

/-- Names of the topics associated with entry `eid` through the join table,
in association order (the relation's view of the document's topic set,
before deduplication). -/
def assocNamesRaw (db : DB) (eid : Nat) : List String :=
  (db.entry_topics.filter (fun p => p.1 = eid)).filterMap
    (fun p => (db.topics.find? (fun q => q.1 = p.2)).map Prod.snd)

/-- The set of topic names associated with entry `eid`, as the
duplicate-free list in first-association order. -/
def assocNames (db : DB) (eid : Nat) : List String :=
  (assocNamesRaw db eid).dedup

/-- `PER_PAGE` (app.py line 25). -/
def PER_PAGE : Nat := 20

/-- `COALESCE(created_fm, created_fs)` — the sort key of the listing
queries. -/
def sortKey (e : Entry) : String := e.created_fm.getD e.created_fs

/-- Insertion sort by a boolean `le`; stands in for the engine's `ORDER BY`
(the claims below never depend on the order among equal keys). -/
def insSort (le : α → α → Bool) : List α → List α
  | [] => []
  | x :: xs => insert x (insSort le xs)
where
  insert (x : α) : List α → List α
    | [] => [x]
    | y :: ys => if le x y then x :: y :: ys else y :: insert x ys

/-- Row set of
`entries e JOIN entry_topics et ON e.id = et.entry_id
JOIN topics t ON et.topic_id = t.id WHERE t.name = ?`. -/
def topicJoinRows (db : DB) (name : String) : List Entry :=
  db.entries.flatMap fun e =>
    db.entry_topics.flatMap fun p =>
      db.topics.filterMap fun q =>
        if p.1 = e.id ∧ p.2 = q.1 ∧ q.2 = name then some e else none

/-- The `/topic/<topic>` route (app.py lines 475-517) up to the data handed
to the template: `none` models `abort(404)` for a topic name absent from
the `topics` table; otherwise the total join count plus the requested page
of rows (`LIMIT PER_PAGE OFFSET (page-1)*PER_PAGE` after `ORDER BY`). -/
def topicRoute (db : DB) (name : String) (page : Nat) (desc : Bool) :
    Option (Nat × List Entry) :=
  if db.topics.any (fun q => q.2 = name) then
    let rows := topicJoinRows db name
    let le : Entry → Entry → Bool := fun a b =>
      if desc then decide (sortKey b ≤ sortKey a) else decide (sortKey a ≤ sortKey b)
    some (rows.length, ((insSort le rows).drop ((page - 1) * PER_PAGE)).take PER_PAGE)
  else none

/-- The raw preview text chosen for a row (app.py lines 423-432): the
stripped body if truthy, else the tag-stripped HTML, else `""`. -/
def rawPreview (e : Entry) : String :=
  if e.content ≠ "" ∧ pyStripS e.content ≠ "" then pyStripS e.content
  else if e.html ≠ "" then pyStripS (stripTags e.html)
  else ""

/-- `was_modified` (app.py lines 449-452): the date part (first 10
characters) of `modified_fs` differs from that of the effective creation
date, with falsy `modified_fs` giving `False`. -/
def wasModified (e : Entry) : Bool :=
  let created := (truthy e.created_fm).getD e.created_fs
  e.modified_fs ≠ "" && ⟨e.modified_fs.data.take 10⟩ ≠ (⟨created.data.take 10⟩ : String)

/-- One element of `processed_entries`. -/
structure PEntry where
  entry : Entry
  preview : String
  was_modified : Bool
deriving DecidableEq

/-- The `processed_entries` computation of the home-page route `index`
(app.py lines 418-454), reproducing its indentation faithfully: the loop
body only converts the row and computes `preview_text`; the clean-up,
truncation and append block sits after the loop, so it sees only the last
row's values.  Inside that block the `else` of `if len(...) > 200` is
aligned with the outer `if`, so a text of at most 200 characters reaches
`truncated + "..."` with `truncated` unbound — a `NameError`, modelled as
`none`.  An empty row list also leaves `preview_text` unbound (`none`). -/
def indexProcessedEntries (rows : List Entry) : Option (List PEntry) :=
  match rows.getLast? with
  | none => none
  | some last =>
    if rawPreview last = "" then some []
    else if (collapseWs (rawPreview last)).data.length > 200 then
      some [{ entry := last
              preview :=
                match rfindIdx (· = ' ') ((collapseWs (rawPreview last)).data.take 200) with
                | some i =>
                  if i > 140 then
                    (⟨(collapseWs (rawPreview last)).data.take i⟩ : String) ++ "..."
                  else collapseWs (rawPreview last)
                | none => collapseWs (rawPreview last)
              was_modified := wasModified last }]
    else none

example : docSlug "My Great Page" = "my-great-page" := by decide
example : wikiSlug "My Great Page" = "my-great-page" := by decide
example : docSlug "a  b" = "a-b" := by decide
example : wikiSlug "a  b" = "a--b" := by decide
example : convert_wikilinks "" "See [[My Great Page]] for more" =
    "See <a href=\"/note/my-great-page/\" class=\"wiki-link\">My Great Page</a> for more" := by
  decide
example : stripTags "<p>hi <b>x</b></p>" = "hi x" := by decide
example : collapseWs "  a \t b  " = "a b" := by decide
example : previewTruncate "short text" = "short text" := by decide

/-! ## Basic facts about the ingestion fold -/

theorem insertTopicAssoc_entries (eid : Nat) (db : DB) (t : String) :
    (insertTopicAssoc eid db t).entries = db.entries := by
  simp only [insertTopicAssoc]
  split
  · rfl
  · split <;> rfl

theorem insertTopicAssoc_fts (eid : Nat) (db : DB) (t : String) :
    (insertTopicAssoc eid db t).fts = db.fts := by
  simp only [insertTopicAssoc]
  split
  · rfl
  · split <;> rfl

theorem foldl_insertTopicAssoc_entries (eid : Nat) (ts : List String) :
    ∀ db : DB, (ts.foldl (insertTopicAssoc eid) db).entries = db.entries := by
  induction ts with
  | nil => intro db; rfl
  | cons t ts ih => intro db; rw [List.foldl_cons, ih, insertTopicAssoc_entries]

theorem foldl_insertTopicAssoc_fts (eid : Nat) (ts : List String) :
    ∀ db : DB, (ts.foldl (insertTopicAssoc eid) db).fts = db.fts := by
  induction ts with
  | nil => intro db; rfl
  | cons t ts ih => intro db; rw [List.foldl_cons, ih, insertTopicAssoc_fts]

theorem processFile_fts (render : String → String) (baseUrl : String)
    (db : DB) (f : SourceFile) :
    (processFile render baseUrl db f).fts = db.fts := by
  cases hp : f.parse with
  | none => simp [processFile, hp]
  | some pc =>
    obtain ⟨fm, content⟩ := pc
    simp only [processFile, hp]
    split
    · rfl
    · exact foldl_insertTopicAssoc_fts ..

/-- A per-file step either leaves the entries unchanged or appends the new
row for this file. -/
theorem processFile_entries (render : String → String) (baseUrl : String)
    (db : DB) (f : SourceFile) :
    (processFile render baseUrl db f).entries = db.entries ∨
    ∃ fm content,
      f.parse = some (fm, content) ∧
      (db.entries.any fun e =>
        e.slug = mkSlug fm (resolveTitle fm content f.stem)) = false ∧
      (processFile render baseUrl db f).entries =
        db.entries ++
          [mkEntry render baseUrl (db.entries.length + 1) fm content f] := by
  cases hp : f.parse with
  | none => exact Or.inl (by simp [processFile, hp])
  | some pc =>
    obtain ⟨fm, content⟩ := pc
    simp only [processFile, hp]
    split
    · exact Or.inl rfl
    · refine Or.inr ⟨fm, content, rfl, by simp_all, ?_⟩
      rw [foldl_insertTopicAssoc_entries]

/-! ## C2: search index consistency -/

/-- C2: after every rebuild the `entry_fts` index has exactly one row per
row of `entries` (equal counts, mirrored content), and it is populated by
the single bulk copy that runs after the per-file loop — no per-file
processing step touches the index. -/
theorem c2_search_index_bulk (render : String → String) (baseUrl : String)
    (files : List SourceFile) :
    (build_database render baseUrl files).fts.length =
      (build_database render baseUrl files).entries.length ∧
    (build_database render baseUrl files).fts =
      (build_database render baseUrl files).entries.map
        (fun e => (e.id, e.title, e.content, e.topics_raw)) ∧
    ∀ (db : DB) (f : SourceFile),
      (processFile render baseUrl db f).fts = db.fts := by
  refine ⟨?_, ?_, fun db f => processFile_fts ..⟩
  · simp [build_database]
  · simp [build_database]

/-! ## C3: per-file errors are contained -/

/-- C3 (amended): a file whose parse raises is skipped and the rest of the
run is unaffected — the store produced with the failing file present is
exactly the store produced without it, so earlier inserts survive and later
files are still processed. -/
theorem c3_failed_file_skipped (render : String → String) (baseUrl : String)
    (pre post : List SourceFile) (bad : SourceFile) (h : bad.parse = none) :
    build_database render baseUrl (pre ++ bad :: post) =
      build_database render baseUrl (pre ++ post) := by
  have hstep : ∀ db : DB, processFile render baseUrl db bad = db := by
    intro db; unfold processFile; rw [h]
  simp only [build_database, List.foldl_append, List.foldl_cons, hstep]

def badFile : SourceFile := { stem := "bad", parse := none }

def idRender : String → String := fun s => s

def f1fm : FrontMatter :=
  { title := some "T", slug := some "x", topics := .list ["python", "til"] }

def f1 : SourceFile :=
  { stem := "a-file"
    parse := some (f1fm, "body")
    stat := { ctime := "2024-01-01 10:00:00", mtime := "2024-01-02 10:00:00" } }

def f1entry : Entry :=
  { id := 1, slug := "x", title := "T", content := "body", html := "body",
    created_fs := "2024-01-01 10:00:00", modified_fs := "2024-01-02 10:00:00",
    created_fm := none, topics_raw := "python,til" }

example : (build_database (fun s => s) "" [f1]).entries = [f1entry] := by decide

example : (build_database (fun s => s) "" [f1]).topics = [(1, "python"), (2, "til")] := by decide
example : (build_database (fun s => s) "" [f1]).entry_topics = [(1, 1), (1, 2)] := by decide
example : (build_database (fun s => s) "" [f1]).fts = [(1, "T", "body", "python,til")] := by decide

/-- C3 witness: with one good and one failing file, the store equals the
store built from the good file alone. -/
theorem c3_witness :
    build_database idRender "" [f1, badFile] = build_database idRender "" [f1] :=
  c3_failed_file_skipped idRender "" [f1] [] badFile rfl

/-- C3 counterexample for the rebuild-report clause: `build_database`
produces no skipped list — its only summary output (entry count, topic
count) is identical whether or not a file failed, and the stores are equal,
so no output of the run records the skipped file. -/
theorem c3_counterexample :
    badFile.parse = none ∧
    buildReport idRender "" [f1, badFile] = buildReport idRender "" [f1] ∧
    buildReport idRender "" [f1, badFile] = (1, 2) := by decide

/-! ## C4: missing content root -/

/-- C4 (amended): when the content directory is missing, `build_database`
stops before processing any file, but it returns normally (nothing is
surfaced to the caller) and the store is left holding the freshly created
empty tables — the prior contents have already been dropped. -/
theorem c4_missing_root (render : String → String) (baseUrl : String)
    (prior : DB) :
    build_database_run render baseUrl prior none = (emptyDB, Outcome.normal) := rfl

def priorDB : DB := build_database idRender "" [f1]

/-- C4 counterexample: a rebuild over a missing content root returns
normally (no failure surfaced) and replaces a non-empty prior store with
empty tables, so prior state is not left untouched. -/
theorem c4_counterexample :
    build_database_run idRender "" priorDB none = (emptyDB, Outcome.normal) ∧
    priorDB ≠ emptyDB := by
  exact ⟨rfl, by decide⟩

/-! ## C6: created_fs fallback -/

/-- C6 (amended): `created_fs` is the filesystem birth time when the
platform exposes `st_birthtime`; otherwise it falls back to `st_ctime`
(the inode change time on Unix), not to the modification time. -/
theorem c6_created_fs (render : String → String) (baseUrl : String)
    (eid : Nat) (fm : FrontMatter) (content : String) (f : SourceFile) :
    (∀ b, f.stat.birthtime = some b →
      (mkEntry render baseUrl eid fm content f).created_fs = b) ∧
    (f.stat.birthtime = none →
      (mkEntry render baseUrl eid fm content f).created_fs = f.stat.ctime) := by
  constructor
  · intro b hb; simp [mkEntry, createdFs, hb]
  · intro hb; simp [mkEntry, createdFs, hb]

def c6file : SourceFile :=
  { stem := "note"
    parse := some ({ title := some "T" }, "body")
    stat := { birthtime := none, ctime := "2024-01-01 10:00:00",
              mtime := "2024-03-05 12:00:00" } }

/-- C6 witness: on a platform without birth time the stored `created_fs`
is the ctime. -/
theorem c6_witness :
    (mkEntry idRender "" 1 { title := some "T" } "body" c6file).created_fs =
      c6file.stat.ctime :=
  (c6_created_fs idRender "" 1 { title := some "T" } "body" c6file).2 rfl

/-- C6 counterexample: with `st_birthtime` unavailable and
`st_ctime ≠ st_mtime`, the stored `created_fs` is the ctime, not the
modification time the claim requires. -/
theorem c6_counterexample :
    c6file.stat.birthtime = none ∧
    (build_database idRender "" [c6file]).entries.map Entry.created_fs =
      ["2024-01-01 10:00:00"] ∧
    c6file.stat.mtime = "2024-03-05 12:00:00" ∧
    ("2024-01-01 10:00:00" : String) ≠ "2024-03-05 12:00:00" := by decide

/-! ## C7: preview truncation -/

theorem rfindIdx_none_spec (p : Char → Bool) :
    ∀ l : List Char, rfindIdx p l = none →
      ∀ j c, l.get? j = some c → p c = false := by
  intro l
  induction l with
  | nil => intro _ j c hc; simp at hc
  | cons a as ih =>
    intro h j c hc
    rw [rfindIdx] at h
    cases hr : rfindIdx p as with
    | some i => rw [hr] at h; simp at h
    | none =>
      rw [hr] at h
      by_cases hp : p a
      · simp [hp] at h
      · cases j with
        | zero =>
          simp only [List.get?_cons_zero, Option.some.injEq] at hc
          subst hc
          exact Bool.eq_false_iff.mpr hp
        | succ j =>
          exact ih hr j c (by simpa using hc)

theorem rfindIdx_some_spec (p : Char → Bool) :
    ∀ (l : List Char) (i : Nat), rfindIdx p l = some i →
      (∃ c, l.get? i = some c ∧ p c = true) ∧
      ∀ j c, i < j → l.get? j = some c → p c = false := by
  intro l
  induction l with
  | nil => intro i h; simp [rfindIdx] at h
  | cons a as ih =>
    intro i h
    rw [rfindIdx] at h
    cases hr : rfindIdx p as with
    | some k =>
      rw [hr] at h
      simp only [Option.some.injEq] at h
      subst h
      obtain ⟨⟨c, hc, hpc⟩, hmax⟩ := ih k hr
      refine ⟨⟨c, by simpa using hc, hpc⟩, ?_⟩
      intro j d hj hd
      cases j with
      | zero => omega
      | succ j =>
        exact hmax j d (by omega) (by simpa using hd)
    | none =>
      rw [hr] at h
      by_cases hp : p a
      · simp only [hp, if_true, Option.some.injEq] at h
        subst h
        refine ⟨⟨a, rfl, hp⟩, ?_⟩
        intro j d hj hd
        cases j with
        | zero => omega
        | succ j => exact rfindIdx_none_spec p as hr j d (by simpa using hd)
      · simp [hp] at h

/-- C7: the preview truncation on whitespace-collapsed text: text of at
most 200 characters is returned unmodified with no ellipsis; longer text is
cut at the last space among the first 200 characters provided that space
lies past position 140, else hard-truncated to exactly 200 characters, and
an ellipsis is appended whenever truncation occurred. -/
theorem c7_preview_truncation (s : String) :
    (s.data.length ≤ 200 → previewTruncate s = s) ∧
    (s.data.length > 200 →
      (∃ i, 140 < i ∧ i < 200 ∧ s.data.get? i = some ' ' ∧
          (∀ j c, i < j → j < 200 → s.data.get? j = some c → c ≠ ' ') ∧
          previewTruncate s = (⟨s.data.take i⟩ : String) ++ "...") ∨
      ((∀ j c, 140 < j → j < 200 → s.data.get? j = some c → c ≠ ' ') ∧
        previewTruncate s = (⟨s.data.take 200⟩ : String) ++ "...")) := by
  constructor
  · intro h
    unfold previewTruncate
    rw [if_neg (by omega)]
  · intro h
    have hval : previewTruncate s =
        match rfindIdx (fun c => decide (c = ' ')) (s.data.take 200) with
        | some i =>
          if i > 140 then (⟨s.data.take i⟩ : String) ++ "..."
          else (⟨s.data.take 200⟩ : String) ++ "..."
        | none => (⟨s.data.take 200⟩ : String) ++ "..." := by
      unfold previewTruncate
      rw [if_pos h]
    have hlen : (s.data.take 200).length = 200 := by
      rw [List.length_take]
      omega
    have hget : ∀ j, j < 200 → (s.data.take 200).get? j = s.data.get? j := by
      intro j hj
      rw [List.get?_take hj]
    cases hr : rfindIdx (fun c => decide (c = ' ')) (s.data.take 200) with
    | none =>
      right
      constructor
      · intro j c h140 h200 hc heq
        subst heq
        have := rfindIdx_none_spec _ _ hr j ' ' (by rw [hget j h200]; exact hc)
        simp at this
      · rw [hval, hr]
    | some i =>
      have hspec := rfindIdx_some_spec _ _ _ hr
      obtain ⟨⟨c, hc, hpc⟩, hmax⟩ := hspec
      have hi200 : i < 200 := by
        by_contra hge
        rw [List.get?_eq_none.mpr (by omega)] at hc
        exact Option.noConfusion hc
      have hcsp : c = ' ' := by simpa using hpc
      subst hcsp
      by_cases h140 : i > 140
      · left
        refine ⟨i, h140, hi200, by rw [← hget i hi200]; exact hc, ?_, ?_⟩
        · intro j d hij hj200 hd heq
          subst heq
          have := hmax j ' ' hij (by rw [hget j hj200]; exact hd)
          simp at this
        · rw [hval, hr]
          simp [h140]
      · right
        constructor
        · intro j d hj140 hj200 hd heq
          subst heq
          have := hmax j ' ' (by omega) (by rw [hget j hj200]; exact hd)
          simp at this
        · rw [hval, hr]
          simp [h140]

/-- C7 witness: a short collapsed text is returned unmodified. -/
theorem c7_witness : previewTruncate "a short body" = "a short body" :=
  (c7_preview_truncation "a short body").1 (by decide)

set_option maxRecDepth 4000 in
example :
    previewTruncate ⟨List.replicate 250 'a'⟩ =
      (⟨List.replicate 200 'a'⟩ : String) ++ "..." := by decide

set_option maxRecDepth 4000 in
example :
    previewTruncate ⟨List.replicate 150 'a' ++ ' ' :: List.replicate 99 'b'⟩ =
      (⟨List.replicate 150 'a'⟩ : String) ++ "..." := by decide

/-! ## C9: not-found vs empty page on the topic route -/

theorem length_insSort_insert (le : α → α → Bool) (x : α) :
    ∀ l : List α, (insSort.insert le x l).length = l.length + 1 := by
  intro l
  induction l with
  | nil => rfl
  | cons y ys ih =>
    rw [insSort.insert]
    split
    · simp
    · simp [ih]

theorem length_insSort (le : α → α → Bool) :
    ∀ l : List α, (insSort le l).length = l.length := by
  intro l
  induction l with
  | nil => rfl
  | cons x xs ih => rw [insSort, length_insSort_insert, ih]; rfl

/-- C9: requesting a topic name absent from the `topics` table aborts with
the typed not-found result (`none`), while requesting an existing topic
whose requested page holds no rows yields an empty page together with the
total count (`some (count, [])`) — the two outcomes are distinguishable. -/
theorem c9_not_found_distinction (db : DB) (name : String) (page : Nat)
    (desc : Bool) :
    (topicRoute db name page desc = none ↔ ∀ q ∈ db.topics, q.2 ≠ name) ∧
    ((∃ q ∈ db.topics, q.2 = name) →
      (topicJoinRows db name).length ≤ (page - 1) * PER_PAGE →
      topicRoute db name page desc =
        some ((topicJoinRows db name).length, [])) := by
  have hany : (db.topics.any fun q => decide (q.2 = name)) = true ↔
      ∃ q ∈ db.topics, q.2 = name := by
    simp [List.any_eq_true]
  constructor
  · constructor
    · intro h q hq hqname
      by_cases hx : (db.topics.any fun q => decide (q.2 = name)) = true
      · unfold topicRoute at h
        rw [if_pos hx] at h
        exact Option.noConfusion h
      · exact hx (hany.mpr ⟨q, hq, hqname⟩)
    · intro hall
      unfold topicRoute
      rw [if_neg]
      intro hx
      obtain ⟨q, hq, hqname⟩ := hany.mp hx
      exact hall q hq hqname
  · intro hex hle
    unfold topicRoute
    rw [if_pos (hany.mpr hex)]
    have h2 :
        (insSort
          (fun a b =>
            if desc then decide (sortKey b ≤ sortKey a)
            else decide (sortKey a ≤ sortKey b))
          (topicJoinRows db name)).drop ((page - 1) * PER_PAGE) = [] := by
      apply List.drop_eq_nil_of_le
      rw [length_insSort]
      exact hle
    simp only [h2, List.take_nil]

def c9db : DB := build_database idRender "" [f1]

/-- C9 witness: in a store with one entry tagged `python`, page 2 of the
`python` topic is the empty page with total count 1 (not the 404 result). -/
theorem c9_witness : topicRoute c9db "python" 2 true = some (1, []) :=
  (c9_not_found_distinction c9db "python" 2 true).2
    ⟨(1, "python"), by decide, rfl⟩ (by decide)

example : topicRoute c9db "ghost" 1 true = none := by decide

/-! ## C10: home-page preview block runs after the loop -/

/-- C10: whenever the home-page route finishes computing
`processed_entries` (the computation also dies with a `NameError` in some
states, yielding `none`), the list passed to the template has at most one
element, that element is derived from the last fetched row, and the list is
empty when the last row's preview text is empty — regardless of how many
rows the page query returned. -/
theorem c10_index_preview_after_loop (rows : List Entry) (l : List PEntry)
    (h : indexProcessedEntries rows = some l) :
    l.length ≤ 1 ∧ (∀ pe ∈ l, rows.getLast? = some pe.entry) ∧
    (∀ last, rows.getLast? = some last → rawPreview last = "" → l = []) := by
  unfold indexProcessedEntries at h
  cases hl : rows.getLast? with
  | none =>
    rw [hl] at h
    exact Option.noConfusion h
  | some last =>
    rw [hl] at h
    dsimp only at h
    by_cases hp : rawPreview last = ""
    · rw [if_pos hp] at h
      have hll : ([] : List PEntry) = l := by injection h
      subst hll
      exact ⟨by simp, by simp, fun _ _ _ => rfl⟩
    · rw [if_neg hp] at h
      by_cases hlen : (collapseWs (rawPreview last)).data.length > 200
      · rw [if_pos hlen] at h
        have hll := Option.some.inj h
        subst hll
        refine ⟨by simp, ?_, ?_⟩
        · intro pe hpe
          simp only [List.mem_singleton] at hpe
          subst hpe
          rfl
        · intro last2 h2 hp2
          have heq : last = last2 := Option.some.inj h2
          subst heq
          exact absurd hp2 hp
      · rw [if_neg hlen] at h
        exact Option.noConfusion h

def blankEntry : Entry :=
  { id := 1, slug := "s", title := "t", content := "", html := "",
    created_fs := "", modified_fs := "", created_fm := none, topics_raw := "" }

/-- C10 witness: a one-row page whose last row has empty preview text
yields the empty processed list. -/
theorem c10_witness :
    ([] : List PEntry).length ≤ 1 ∧
    (∀ pe ∈ ([] : List PEntry), [blankEntry].getLast? = some pe.entry) ∧
    (∀ last, [blankEntry].getLast? = some last → rawPreview last = "" →
      ([] : List PEntry) = []) :=
  c10_index_preview_after_loop [blankEntry] [] (by decide)

/-! ## C5: wikilink slugs versus document slugs -/

theorem alnum_ne_chars {c : Char} (h : c.isAlphanum = true) :
    c ≠ ' ' ∧ c ≠ '_' ∧ c ≠ '-' := by
  refine ⟨?_, ?_, ?_⟩ <;> rintro rfl <;> exact absurd h (by decide)

theorem alnum_not_pyspace {c : Char} (h : c.isAlphanum = true) :
    isPySpace c = false := by
  by_contra hb
  rw [Bool.not_eq_false] at hb
  unfold isPySpace at hb
  simp only [Bool.or_eq_true, decide_eq_true_eq] at hb
  rcases hb with ((((rfl | rfl) | rfl) | rfl) | rfl) | rfl <;> exact absurd h (by decide)

/-- The common effect of both slugging rules on a clean lowered text:
each space becomes a hyphen, every other character is kept. -/
def spaceToHyphen (c : Char) : Char := if c = ' ' then '-' else c

/-- No two adjacent spaces. -/
def noDoubleSpace : List Char → Bool
  | [] => true
  | [_] => true
  | a :: b :: rest => !(a = ' ' && b = ' ') && noDoubleSpace (b :: rest)

theorem noDoubleSpace_tail {c : Char} {cs : List Char}
    (h : noDoubleSpace (c :: cs) = true) : noDoubleSpace cs = true := by
  cases cs with
  | nil => rfl
  | cons d ds =>
    rw [noDoubleSpace] at h
    simp only [Bool.and_eq_true] at h
    exact h.2

theorem noDoubleSpace_head {d : Char} {ds : List Char}
    (h : noDoubleSpace (' ' :: d :: ds) = true) : d ≠ ' ' := by
  rw [noDoubleSpace] at h
  simp only [Bool.and_eq_true, Bool.not_eq_true', Bool.and_eq_false_iff,
    decide_eq_false_iff_not] at h
  rcases h.1 with h1 | h1
  · exact absurd trivial h1
  · exact h1

/-- Wikilink texts on which the claim's equality is provable: the lowered
character sequence is nonempty, consists of alphanumerics and spaces only,
and spaces neither lead, trail, nor repeat. -/
def SimpleWords (t : String) : Prop :=
  pyLower t.data ≠ [] ∧
  (∀ c ∈ pyLower t.data, c.isAlphanum = true ∨ c = ' ') ∧
  (pyLower t.data).head? ≠ some ' ' ∧
  (pyLower t.data).getLast? ≠ some ' ' ∧
  noDoubleSpace (pyLower t.data) = true

instance (t : String) : Decidable (SimpleWords t) :=
  inferInstanceAs (Decidable
    (pyLower t.data ≠ [] ∧
     (∀ c ∈ pyLower t.data, c.isAlphanum = true ∨ c = ' ') ∧
     (pyLower t.data).head? ≠ some ' ' ∧
     (pyLower t.data).getLast? ≠ some ' ' ∧
     noDoubleSpace (pyLower t.data) = true))

theorem subRunsAux_simple :
    ∀ (l : List Char) (b : Bool),
      (∀ c ∈ l, c.isAlphanum = true ∨ c = ' ') →
      noDoubleSpace l = true →
      (b = true → l.head? ≠ some ' ') →
      subRunsAux (fun c => isPySpace c || c = '_') '-' b l = l.map spaceToHyphen := by
  intro l
  induction l with
  | nil => intro b _ _ _; rfl
  | cons c cs ih =>
    intro b hmem hch hhd
    rcases hmem c (by simp) with halnum | hsp
    · have hp : (isPySpace c || decide (c = '_')) = false := by
        rw [alnum_not_pyspace halnum]
        simp [(alnum_ne_chars halnum).2.1]
      have hstep : spaceToHyphen c = c := by
        simp [spaceToHyphen, (alnum_ne_chars halnum).1]
      rw [subRunsAux]
      rw [hp]
      simp only [Bool.false_eq_true, if_false, List.map_cons, hstep]
      refine congrArg (c :: ·) ?_
      exact ih false (fun d hd => hmem d (by simp [hd])) (noDoubleSpace_tail hch) (by simp)
    · subst hsp
      have hb : b = false := by
        cases b
        · rfl
        · exact absurd rfl (hhd rfl)
      subst hb
      rw [subRunsAux]
      have hp : (isPySpace ' ' || decide ((' ' : Char) = '_')) = true := by decide
      rw [hp]
      simp only [if_true, Bool.false_eq_true, if_false, List.map_cons]
      have hstep : spaceToHyphen ' ' = '-' := rfl
      rw [hstep]
      refine congrArg ('-' :: ·) ?_
      refine ih true (fun d hd => hmem d (by simp [hd])) (noDoubleSpace_tail hch) ?_
      intro _ hhead
      cases cs with
      | nil => simp at hhead
      | cons d ds =>
        simp only [List.head?_cons, Option.some.injEq] at hhead
        exact noDoubleSpace_head hch hhead

theorem dropWhile_of_head_ne {c : Char} :
    ∀ (m : List Char), m.head? ≠ some c → m.dropWhile (· = c) = m := by
  intro m hm
  cases m with
  | nil => rfl
  | cons a as =>
    have hac : a ≠ c := fun h => hm (by simp [h])
    simp [List.dropWhile_cons, hac]

theorem stripChar_id {c : Char} {l : List Char}
    (h1 : l.head? ≠ some c) (h2 : l.getLast? ≠ some c) :
    stripChar c l = l := by
  unfold stripChar
  rw [dropWhile_of_head_ne l h1]
  rw [dropWhile_of_head_ne l.reverse (by rwa [List.head?_reverse])]
  exact List.reverse_reverse l

theorem docSlug_simple (t : String) (h : SimpleWords t) :
    docSlug t = ⟨(pyLower t.data).map spaceToHyphen⟩ := by
  obtain ⟨hne, hmem, hhd, hlast, hch⟩ := h
  unfold docSlug
  have hfilter :
      (pyLower t.data).filter (fun c => isPyWord c || isPySpace c || c = '-') =
        pyLower t.data := by
    rw [List.filter_eq_self]
    intro c hc
    rcases hmem c hc with halnum | hsp
    · simp [isPyWord, halnum]
    · subst hsp; decide
  have hmaphd : ((pyLower t.data).map spaceToHyphen).head? ≠ some '-' := by
    cases hl : pyLower t.data with
    | nil => simp
    | cons c cs =>
      rcases hmem c (by rw [hl]; simp) with halnum | hsp
      · have hst : spaceToHyphen c = c := by
          simp [spaceToHyphen, (alnum_ne_chars halnum).1]
        simp [hst, (alnum_ne_chars halnum).2.2]
      · exact absurd (by rw [hl, hsp]; simp) hhd
  have hmaplast : ((pyLower t.data).map spaceToHyphen).getLast? ≠ some '-' := by
    rw [List.getLast?_map]
    cases hl : (pyLower t.data).getLast? with
    | none => simp
    | some c =>
      have hcmem : c ∈ pyLower t.data := List.mem_of_getLast?_eq_some hl
      rcases hmem c hcmem with halnum | hsp
      · have hst : spaceToHyphen c = c := by
          simp [spaceToHyphen, (alnum_ne_chars halnum).1]
        simp [hst, (alnum_ne_chars halnum).2.2]
      · subst hsp; exact absurd hl hlast
  simp only [hfilter]
  rw [subRuns, subRunsAux_simple (pyLower t.data) false hmem hch (by simp)]
  rw [stripChar_id hmaphd hmaplast]

theorem wikiSlug_simple (t : String) (h : SimpleWords t) :
    wikiSlug t = ⟨(pyLower t.data).map spaceToHyphen⟩ := by
  obtain ⟨hne, hmem, hhd, hlast, hch⟩ := h
  unfold wikiSlug
  have hmap :
      (pyLower t.data).map
          (fun c => if c = ' ' then '-' else if c = '_' then '-' else c) =
        (pyLower t.data).map spaceToHyphen := by
    apply List.map_congr_left
    intro c hc
    rcases hmem c hc with halnum | hsp
    · simp [spaceToHyphen, (alnum_ne_chars halnum).1, (alnum_ne_chars halnum).2.1]
    · subst hsp; rfl
  simp only [hmap]
  rw [List.filter_eq_self.mpr]
  intro c hc
  simp only [List.mem_map] at hc
  obtain ⟨d, hd, rfl⟩ := hc
  rcases hmem d hd with halnum | hsp
  · have : spaceToHyphen d = d := by
      simp [spaceToHyphen, (alnum_ne_chars halnum).1]
    simp [this, isPyWord, halnum]
  · subst hsp; decide

theorem takeWhile_append_all (p : Char → Bool) :
    ∀ (a b : List Char), (∀ c ∈ a, p c = true) →
      (a ++ b).takeWhile p = a ++ b.takeWhile p := by
  intro a
  induction a with
  | nil => intro b _; rfl
  | cons x xs ih =>
    intro b h
    rw [List.cons_append, List.takeWhile_cons, if_pos (h x (by simp))]
    rw [ih b (fun c hc => h c (by simp [hc]))]
    rfl

theorem convertWikilinksAux_nil (baseUrl : String) (fuel : Nat) :
    convertWikilinksAux baseUrl fuel [] = [] := by
  cases fuel <;> rfl

theorem convertWikilinksAux_single (baseUrl : String) (t : List Char)
    (h1 : t ≠ []) (h2 : ∀ c ∈ t, c ≠ ']') (fuel : Nat) :
    convertWikilinksAux baseUrl (fuel + 1) ('[' :: '[' :: (t ++ [']', ']'])) =
      (wikiAnchor baseUrl t).data := by
  have hTW : (t ++ [']', ']']).takeWhile (fun c => decide (c ≠ ']')) = t := by
    rw [takeWhile_append_all _ t [']', ']'] (fun c hc => by simpa using h2 c hc)]
    simp
  rw [convertWikilinksAux]
  simp only [hTW]
  rw [List.drop_left]
  rw [if_pos ⟨h1, rfl⟩]
  rw [show (([']', ']'] : List Char).drop 2) = [] from rfl]
  rw [convertWikilinksAux_nil, List.append_nil]

/-- C5 (amended): the wikilink rewrite inserts an anchor whose href slug is
derived by the wikilink rule and whose visible text is the original page
name, and it is applied to the body strictly before the Markdown render in
the entry construction; the wikilink slug coincides with the document slug
rule on texts whose lowered form is words separated by single spaces
(it differs on other inputs, e.g. consecutive spaces). -/
theorem c5_wikilink_rewrite (render : String → String) (baseUrl : String) :
    (∀ t, SimpleWords t → wikiSlug t = docSlug t) ∧
    (∀ t : String, t.data ≠ [] → (∀ c ∈ t.data, c ≠ ']') →
      convert_wikilinks baseUrl ("[[" ++ t ++ "]]") =
        "<a href=\"" ++ baseUrl ++ "/note/" ++ wikiSlug t ++
          "/\" class=\"wiki-link\">" ++ t ++ "</a>") ∧
    (∀ eid fm content f,
      (mkEntry render baseUrl eid fm content f).html =
        render (convert_wikilinks baseUrl content)) := by
  refine ⟨?_, ?_, fun eid fm content f => rfl⟩
  · intro t h
    rw [wikiSlug_simple t h, docSlug_simple t h]
  · intro t h1 h2
    have hdata : ("[[" ++ t ++ "]]").data = '[' :: '[' :: (t.data ++ [']', ']']) := by
      have : ("[[" ++ t ++ "]]").data = "[[".data ++ t.data ++ "]]".data := by
        simp [String.data_append]
      rw [this]
      simp
    show (⟨convertWikilinksAux baseUrl ("[[" ++ t ++ "]]").data.length
            ("[[" ++ t ++ "]]").data⟩ : String) = _
    rw [hdata]
    have hlen : ('[' :: '[' :: (t.data ++ [']', ']'])).length = (t.data.length + 3) + 1 := by
      simp
    rw [hlen]
    rw [convertWikilinksAux_single baseUrl t.data h1 h2 (t.data.length + 3)]
    rfl

/-- C5 witness: on `My Great Page` the two slug rules agree and the rewrite
produces the expected anchor. -/
theorem c5_witness :
    wikiSlug "My Great Page" = docSlug "My Great Page" ∧
    convert_wikilinks "" ("[[" ++ "My Great Page" ++ "]]") =
      "<a href=\"" ++ "" ++ "/note/" ++ wikiSlug "My Great Page" ++
        "/\" class=\"wiki-link\">" ++ "My Great Page" ++ "</a>" :=
  ⟨(c5_wikilink_rewrite idRender "").1 "My Great Page" (by decide),
   (c5_wikilink_rewrite idRender "").2.1 "My Great Page" (by decide) (by decide)⟩

/-- C5 counterexample: on `a  b` (two spaces) the wikilink slug is `a--b`
but the document slug rule yields `a-b`, so the slug embedded in the
rewritten href differs from the document-slug derivation for the same
text — the two slugging functions are not extensionally equal. -/
theorem c5_counterexample :
    wikiSlug "a  b" = "a--b" ∧ docSlug "a  b" = "a-b" ∧
    convert_wikilinks "" "[[a  b]]" =
      "<a href=\"/note/a--b/\" class=\"wiki-link\">a  b</a>" ∧
    ("a--b" : String) ≠ "a-b" := by decide

/-! ## C8: slug uniqueness and collision resolution -/

theorem processFile_slug_nodup (render : String → String) (baseUrl : String)
    (db : DB) (f : SourceFile)
    (h : (db.entries.map Entry.slug).Nodup) :
    ((processFile render baseUrl db f).entries.map Entry.slug).Nodup := by
  rcases processFile_entries render baseUrl db f with heq | ⟨fm, content, _, hany, heq⟩
  · rw [heq]; exact h
  · rw [heq, List.map_append]
    have hnotin :
        mkSlug fm (resolveTitle fm content f.stem) ∉ db.entries.map Entry.slug := by
      intro hmem
      obtain ⟨e, he, hslug⟩ := List.mem_map.mp hmem
      have := List.any_eq_false.mp hany e he
      simp [hslug] at this
    simp [List.nodup_append, h, mkEntry, hnotin]

theorem foldl_slug_nodup (render : String → String) (baseUrl : String) :
    ∀ (fs : List SourceFile) (db : DB),
      (db.entries.map Entry.slug).Nodup →
      ((fs.foldl (processFile render baseUrl) db).entries.map Entry.slug).Nodup := by
  intro fs
  induction fs with
  | nil => intro db h; exact h
  | cons f fs ih =>
    intro db h
    rw [List.foldl_cons]
    exact ih _ (processFile_slug_nodup render baseUrl db f h)

theorem processFile_mem_entries (render : String → String) (baseUrl : String)
    (db : DB) (f : SourceFile) {e : Entry} (h : e ∈ db.entries) :
    e ∈ (processFile render baseUrl db f).entries := by
  rcases processFile_entries render baseUrl db f with heq | ⟨_, _, _, _, heq⟩ <;>
    rw [heq] <;> simp [h]

theorem foldl_mem_entries (render : String → String) (baseUrl : String) :
    ∀ (fs : List SourceFile) (db : DB) {e : Entry}, e ∈ db.entries →
      e ∈ (fs.foldl (processFile render baseUrl) db).entries := by
  intro fs
  induction fs with
  | nil => intro db e h; exact h
  | cons f fs ih =>
    intro db e h
    rw [List.foldl_cons]
    exact ih _ (processFile_mem_entries render baseUrl db f h)

/-- C8 (amended): after every rebuild no two stored documents share a slug
(the UNIQUE constraint makes the insert of a colliding file fail, and the
whole file is skipped), and collisions are resolved first-file-wins: the
earliest file in discovery order keeps its document.  The resolution is
deterministic for a fixed discovery order, but not as a function of the
unordered file set. -/
theorem c8_slug_uniqueness (render : String → String) (baseUrl : String) :
    (∀ files : List SourceFile,
      ((build_database render baseUrl files).entries.map Entry.slug).Nodup) ∧
    (∀ (f : SourceFile) (rest : List SourceFile) (fm : FrontMatter)
        (content : String),
      f.parse = some (fm, content) →
      ∃ e ∈ (build_database render baseUrl (f :: rest)).entries,
        e.id = 1 ∧ e.content = content ∧
        e.title = resolveTitle fm content f.stem ∧
        e.slug = mkSlug fm (resolveTitle fm content f.stem)) := by
  constructor
  · intro files
    have hfold := foldl_slug_nodup render baseUrl files emptyDB (by simp [emptyDB])
    simpa [build_database] using hfold
  · intro f rest fm content hp
    have hstep :
        mkEntry render baseUrl 1 fm content f ∈
          (processFile render baseUrl emptyDB f).entries := by
      simp only [processFile, hp]
      rw [if_neg (by simp [emptyDB])]
      rw [foldl_insertTopicAssoc_entries]
      simp [emptyDB]
    have hmem :
        mkEntry render baseUrl 1 fm content f ∈
          (build_database render baseUrl (f :: rest)).entries := by
      have := foldl_mem_entries render baseUrl rest
        (processFile render baseUrl emptyDB f) hstep
      simpa [build_database, List.foldl_cons] using this
    exact ⟨mkEntry render baseUrl 1 fm content f, hmem, rfl, rfl, rfl, rfl⟩

def g1fm : FrontMatter := { title := some "A", slug := some "x" }

def g2fm : FrontMatter := { title := some "B", slug := some "x" }

def g1 : SourceFile := { stem := "g1", parse := some (g1fm, "ca") }

def g2 : SourceFile := { stem := "g2", parse := some (g2fm, "cb") }

/-- C8 witness: with two colliding files, the first file's document (id 1,
its own body, title and slug) is in the store. -/
theorem c8_witness :
    ∃ e ∈ (build_database idRender "" [g1, g2]).entries,
      e.id = 1 ∧ e.content = "ca" ∧
      e.title = resolveTitle g1fm "ca" g1.stem ∧
      e.slug = mkSlug g1fm (resolveTitle g1fm "ca" g1.stem) :=
  (c8_slug_uniqueness idRender "").2 g1 [g2] g1fm "ca" rfl

/-- C8 counterexample: the same unordered set of source files (the two
lists are permutations of each other) yields different surviving documents
for the colliding slug, so resolution is not deterministic in the file set
alone. -/
theorem c8_counterexample :
    [g1, g2].Perm [g2, g1] ∧
    (build_database idRender "" [g1, g2]).entries.map Entry.title = ["A"] ∧
    (build_database idRender "" [g2, g1]).entries.map Entry.title = ["B"] := by
  refine ⟨List.Perm.swap g2 g1 [], by decide, by decide⟩

/-! ## C1: topics_raw versus the join table -/

/-- Invariant of the topics table and join table maintained by the build:
topic ids are 1..n, ids are distinct, and every association points at an
existing topic row. -/
def TInv (db : DB) : Prop :=
  (∀ q ∈ db.topics, 1 ≤ q.1 ∧ q.1 ≤ db.topics.length) ∧
  (db.topics.map Prod.fst).Nodup ∧
  (∀ p ∈ db.entry_topics, ∃ q ∈ db.topics, q.1 = p.2)

theorem find?_append_some {α} {p : α → Bool} {l1 l2 : List α} {x : α}
    (h : l1.find? p = some x) : (l1 ++ l2).find? p = some x := by
  rw [List.find?_append, h]
  rfl

theorem find?_append_none {α} {p : α → Bool} {l1 l2 : List α}
    (h : l1.find? p = none) : (l1 ++ l2).find? p = l2.find? p := by
  rw [List.find?_append, h]
  rfl

theorem find?_key_unique {l : List (Nat × String)} (h : (l.map Prod.fst).Nodup)
    {x : Nat × String} (hx : x ∈ l) :
    l.find? (fun q => q.1 = x.1) = some x := by
  induction l with
  | nil => cases hx
  | cons y ys ih =>
    rcases List.mem_cons.mp hx with rfl | hmem
    · simp [List.find?_cons]
    · have hy : y.1 ∉ ys.map Prod.fst := (List.nodup_cons.mp h).1
      have hxin : x.1 ∈ ys.map Prod.fst := List.mem_map_of_mem _ hmem
      have hne : ¬(y.1 = x.1) := fun he => hy (he ▸ hxin)
      rw [List.find?_cons, decide_eq_false hne]
      exact ih (List.nodup_cons.mp h).2 hmem

theorem insertTopicAssoc_spec (eid : Nat) (db : DB) (t : String)
    (ht1 : pyStripS t = t) (ht2 : t ≠ "") (hI : TInv db) :
    TInv (insertTopicAssoc eid db t) ∧
    (∃ l, (insertTopicAssoc eid db t).topics = db.topics ++ l) ∧
    (∀ p ∈ (insertTopicAssoc eid db t).entry_topics,
      p ∈ db.entry_topics ∨ p.1 = eid) ∧
    (∀ i, assocNamesRaw (insertTopicAssoc eid db t) i =
      assocNamesRaw db i ++ if i = eid then [t] else []) := by
  obtain ⟨hbound, hids, hvalid⟩ := hI
  by_cases hex : (db.topics.any fun q => decide (q.2 = t)) = true
  · obtain ⟨q0, hq0m, hq0n⟩ : ∃ q ∈ db.topics, q.2 = t := by
      simpa using List.any_eq_true.mp hex
    cases hfind : db.topics.find? (fun q => decide (q.2 = t)) with
    | none =>
      have := List.find?_eq_none.mp hfind q0 hq0m
      simp [hq0n] at this
    | some q =>
      have hqm : q ∈ db.topics := List.mem_of_find?_eq_some hfind
      have hqn : q.2 = t := by simpa using List.find?_some hfind
      have hval : insertTopicAssoc eid db t =
          { db with entry_topics := db.entry_topics ++ [(eid, q.1)] } := by
        simp only [insertTopicAssoc, ht1]
        rw [if_neg ht2, if_pos hex, hfind]
      rw [hval]
      refine ⟨⟨hbound, hids, ?_⟩, ⟨[], by simp⟩, ?_, ?_⟩
      · intro p hp
        rcases List.mem_append.mp hp with hold | hnew
        · exact hvalid p hold
        · simp only [List.mem_singleton] at hnew
          exact ⟨q, hqm, by rw [hnew]⟩
      · intro p hp
        rcases List.mem_append.mp hp with hold | hnew
        · exact Or.inl hold
        · simp only [List.mem_singleton] at hnew
          right
          rw [hnew]
      · intro i
        unfold assocNamesRaw
        dsimp only
        rw [List.filter_append, List.filterMap_append]
        congr 1
        by_cases hi : i = eid
        · subst hi
          have hlook : db.topics.find? (fun z => decide (z.1 = q.1)) = some q :=
            find?_key_unique hids hqm
          simp [List.filter_cons, hlook, hqn]
        · have : ¬(eid = i) := fun he => hi he.symm
          simp [List.filter_cons, this, hi]
  · have hanyf : (db.topics.any fun q => decide (q.2 = t)) = false :=
      Bool.eq_false_iff.mpr hex
    have hnone : db.topics.find? (fun q => decide (q.2 = t)) = none := by
      rw [List.find?_eq_none]
      intro x hx
      exact List.any_eq_false.mp hanyf x hx
    have hfind2 : (db.topics ++ [(db.topics.length + 1, t)]).find?
        (fun q => decide (q.2 = t)) = some (db.topics.length + 1, t) := by
      rw [find?_append_none hnone]
      simp [List.find?_cons]
    have hval : insertTopicAssoc eid db t =
        { db with topics := db.topics ++ [(db.topics.length + 1, t)],
                  entry_topics := db.entry_topics ++ [(eid, db.topics.length + 1)] } := by
      simp only [insertTopicAssoc, ht1]
      rw [if_neg ht2, if_neg hex, hfind2]
    rw [hval]
    have hfresh : (db.topics.length + 1) ∉ db.topics.map Prod.fst := by
      intro hmem
      obtain ⟨q, hq, hq1⟩ := List.mem_map.mp hmem
      have := hbound q hq
      omega
    refine ⟨⟨?_, ?_, ?_⟩, ⟨[(db.topics.length + 1, t)], rfl⟩, ?_, ?_⟩
    · intro q hq
      rw [List.length_append, List.length_singleton]
      rcases List.mem_append.mp hq with hold | hnew
      · have := hbound q hold
        omega
      · simp only [List.mem_singleton] at hnew
        rw [hnew]
        omega
    · rw [List.map_append]
      simp only [List.map_cons, List.map_nil]
      rw [List.nodup_append]
      refine ⟨hids, List.nodup_singleton _, ?_⟩
      intro a ha hb
      simp only [List.mem_singleton] at hb
      subst hb
      exact hfresh ha
    · intro p hp
      rcases List.mem_append.mp hp with hold | hnew
      · obtain ⟨q, hq, hq1⟩ := hvalid p hold
        exact ⟨q, List.mem_append_left _ hq, hq1⟩
      · simp only [List.mem_singleton] at hnew
        rw [hnew]
        exact ⟨(db.topics.length + 1, t), List.mem_append_right _ (by simp), rfl⟩
    · intro p hp
      rcases List.mem_append.mp hp with hold | hnew
      · exact Or.inl hold
      · simp only [List.mem_singleton] at hnew
        right
        rw [hnew]
    · intro i
      unfold assocNamesRaw
      dsimp only
      rw [List.filter_append, List.filterMap_append]
      congr 1
      · apply List.filterMap_congr
        intro p hp
        have hpmem : p ∈ db.entry_topics := List.mem_of_mem_filter hp
        obtain ⟨q, hq, hq1⟩ := hvalid p hpmem
        cases hf : db.topics.find? (fun z => decide (z.1 = p.2)) with
        | none =>
          have := List.find?_eq_none.mp hf q hq
          simp [hq1] at this
        | some x =>
          simp [find?_append_some hf, hf]
      · have hnolook : db.topics.find?
            (fun z => decide (z.1 = db.topics.length + 1)) = none := by
          rw [List.find?_eq_none]
          intro x hx
          have := hbound x hx
          simp only [decide_eq_true_eq]
          omega
        by_cases hi : i = eid
        · subst hi
          simp [List.filter_cons, List.filterMap_cons, hnolook,
            List.find?_cons, Option.none_or]
        · have hne : ¬(eid = i) := fun he => hi he.symm
          simp [List.filter_cons, hne, hi]

theorem foldl_insertTopicAssoc_spec (eid : Nat) :
    ∀ (ts : List String) (db : DB),
      (∀ t ∈ ts, pyStripS t = t ∧ t ≠ "") → TInv db →
      TInv (ts.foldl (insertTopicAssoc eid) db) ∧
      (∀ p ∈ (ts.foldl (insertTopicAssoc eid) db).entry_topics,
        p ∈ db.entry_topics ∨ p.1 = eid) ∧
      (∀ i, assocNamesRaw (ts.foldl (insertTopicAssoc eid) db) i =
        assocNamesRaw db i ++ if i = eid then ts else []) := by
  intro ts
  induction ts with
  | nil =>
    intro db _ hI
    refine ⟨hI, fun p hp => Or.inl hp, fun i => by simp⟩
  | cons t ts ih =>
    intro db hclean hI
    obtain ⟨hI1, _, hassoc1, hraw1⟩ :=
      insertTopicAssoc_spec eid db t (hclean t (by simp)).1 (hclean t (by simp)).2 hI
    obtain ⟨hI2, hassoc2, hraw2⟩ :=
      ih (insertTopicAssoc eid db t) (fun u hu => hclean u (by simp [hu])) hI1
    rw [List.foldl_cons]
    refine ⟨hI2, ?_, ?_⟩
    · intro p hp
      rcases hassoc2 p hp with hold | hnew
      · exact hassoc1 p hold
      · exact Or.inr hnew
    · intro i
      rw [hraw2 i, hraw1 i]
      by_cases hi : i = eid
      · subst hi
        simp
      · simp [hi]

/-- Global invariant carried through the per-file fold: table invariants,
id bounds, and the statement of C1 itself (with the duplicate-free
association name list). -/
def GInv (db : DB) : Prop :=
  TInv db ∧
  (∀ p ∈ db.entry_topics, p.1 ≤ db.entries.length) ∧
  (∀ e ∈ db.entries, e.id ≤ db.entries.length) ∧
  (∀ e ∈ db.entries, (assocNamesRaw db e.id).Nodup ∧
    e.topics_raw = joinComma (assocNamesRaw db e.id))

/-- Cleanliness of a file's front-matter topic list: no duplicates, each
topic already stripped and nonempty. -/
def cleanTopics (f : SourceFile) : Prop :=
  ∀ fm content, f.parse = some (fm, content) →
    (resolveTopics fm.topics).Nodup ∧
    ∀ t ∈ resolveTopics fm.topics, pyStripS t = t ∧ t ≠ ""

theorem processFile_GInv (render : String → String) (baseUrl : String)
    (db : DB) (f : SourceFile) (hf : cleanTopics f) (h : GInv db) :
    GInv (processFile render baseUrl db f) := by
  obtain ⟨hT, hpb, heb, hraw⟩ := h
  cases hp : f.parse with
  | none =>
    have : processFile render baseUrl db f = db := by simp [processFile, hp]
    rw [this]
    exact ⟨hT, hpb, heb, hraw⟩
  | some pc =>
    obtain ⟨fm, content⟩ := pc
    obtain ⟨hnodup, hclean⟩ := hf fm content hp
    simp only [processFile, hp]
    split
    · exact ⟨hT, hpb, heb, hraw⟩
    · set eid := db.entries.length + 1 with heid
      set e0 := mkEntry render baseUrl eid fm content f with he0
      set db1 : DB := { db with entries := db.entries ++ [e0] } with hdb1
      have hT1 : TInv db1 := hT
      obtain ⟨hT2, hassoc2, hraw2⟩ :=
        foldl_insertTopicAssoc_spec eid (resolveTopics fm.topics) db1 hclean hT1
      set db2 := (resolveTopics fm.topics).foldl (insertTopicAssoc eid) db1 with hdb2
      have hent2 : db2.entries = db.entries ++ [e0] :=
        foldl_insertTopicAssoc_entries ..
      have hlen2 : db2.entries.length = db.entries.length + 1 := by
        rw [hent2]
        simp
      have hraw1 : ∀ i, assocNamesRaw db1 i = assocNamesRaw db i := fun i => rfl
      have hrawOld : ∀ i, i ≠ eid → assocNamesRaw db2 i = assocNamesRaw db i := by
        intro i hi
        rw [hraw2 i, hraw1 i, if_neg hi, List.append_nil]
      have hrawNew : assocNamesRaw db2 eid = resolveTopics fm.topics := by
        rw [hraw2 eid, hraw1 eid, if_pos rfl]
        have hempty : assocNamesRaw db eid = [] := by
          unfold assocNamesRaw
          have : db.entry_topics.filter (fun p => p.1 = eid) = [] := by
            rw [List.filter_eq_nil_iff]
            intro p hpm
            have := hpb p hpm
            simp only [decide_eq_true_eq]
            omega
          rw [this]
          rfl
        rw [hempty]
        rfl
      refine ⟨hT2, ?_, ?_, ?_⟩
      · intro p hp2
        rcases hassoc2 p hp2 with hold | hnew
        · have := hpb p hold
          omega
        · omega
      · intro e he2
        rw [hent2] at he2
        rw [hlen2]
        rcases List.mem_append.mp he2 with hold | hnew
        · have := heb e hold
          omega
        · simp only [List.mem_singleton] at hnew
          rw [hnew, he0]
          simp [mkEntry, heid]
      · intro e he2
        rw [hent2] at he2
        rcases List.mem_append.mp he2 with hold | hnew
        · have hne : e.id ≠ eid := by
            have := heb e hold
            omega
          rw [hrawOld e.id hne]
          exact hraw e hold
        · simp only [List.mem_singleton] at hnew
          rw [hnew]
          have hid0 : e0.id = eid := rfl
          rw [hid0, hrawNew]
          exact ⟨hnodup, rfl⟩

/-- C1 (amended): after every rebuild, on every stored document whose
source front-matter topics are duplicate-free, pre-stripped and nonempty,
`topics_raw` equals the comma-joined set of topic names associated with the
document through the join table.  (The unamended claim fails for topics
with surrounding whitespace, empty strings or duplicates, because
`topics_raw` joins the raw list while the join table stores stripped,
deduplicated names.) -/
theorem c1_topics_raw_integrity (render : String → String) (baseUrl : String)
    (files : List SourceFile) (h : ∀ f ∈ files, cleanTopics f) :
    ∀ e ∈ (build_database render baseUrl files).entries,
      e.topics_raw =
        joinComma (assocNames (build_database render baseUrl files) e.id) := by
  have hfold : ∀ (fs : List SourceFile) (db : DB),
      (∀ f ∈ fs, cleanTopics f) → GInv db →
      GInv (fs.foldl (processFile render baseUrl) db) := by
    intro fs
    induction fs with
    | nil => intro db _ hg; exact hg
    | cons f fs ih =>
      intro db hcl hg
      rw [List.foldl_cons]
      exact ih _ (fun u hu => hcl u (by simp [hu]))
        (processFile_GInv render baseUrl db f (hcl f (by simp)) hg)
  have hg := hfold files emptyDB h
    ⟨⟨by simp [emptyDB], by simp [emptyDB], by simp [emptyDB]⟩,
      by simp [emptyDB], by simp [emptyDB], by simp [emptyDB]⟩
  intro e he
  set dbf := files.foldl (processFile render baseUrl) emptyDB with hdbf
  have hent : (build_database render baseUrl files).entries = dbf.entries := by
    simp [build_database]
  have hrawEq : ∀ i, assocNamesRaw (build_database render baseUrl files) i =
      assocNamesRaw dbf i := fun i => rfl
  rw [hent] at he
  obtain ⟨hnd, hjoin⟩ := hg.2.2.2 e he
  unfold assocNames
  rw [hrawEq, List.dedup_eq_self.mpr hnd]
  exact hjoin

/-- C1 witness: on a file with a clean topic list the invariant holds for
the stored document in the built store. -/
theorem c1_witness :
    f1entry.topics_raw =
      joinComma (assocNames (build_database idRender "" [f1]) f1entry.id) :=
  c1_topics_raw_integrity idRender "" [f1] (by
    intro f hf fm content hp
    simp only [List.mem_singleton] at hf
    subst hf
    have h := Option.some.inj hp
    have h1 : f1fm = fm := congrArg Prod.fst h
    have h2 : ("body" : String) = content := congrArg Prod.snd h
    subst h1
    subst h2
    exact ⟨by decide, by decide⟩) f1entry (by decide)

def c1file : SourceFile :=
  { stem := "c1"
    parse := some ({ title := some "T", slug := some "x",
                     topics := .list [" python "] }, "body") }

/-- C1 counterexample: a front-matter topic with surrounding whitespace is
stored raw in `topics_raw` (" python ") but stripped ("python") in the
topics table, so the denormalized string differs from the comma-joined
associated set. -/
theorem c1_counterexample :
    (build_database idRender "" [c1file]).entries.map Entry.topics_raw =
      [" python "] ∧
    ((build_database idRender "" [c1file]).entries.map
      (fun e => joinComma (assocNames (build_database idRender "" [c1file]) e.id))) =
      ["python"] ∧
    (" python " : String) ≠ "python" := by decide

end TILBlog
